import Mathlib

/-!
Shallow embedding of the sample-buffer arithmetic library
(`src/src/util/sample.cpp`, class `SampleUtil`) and verification of its
specification claims.

Sample buffers (`CSAMPLE*` arrays of floats) are modelled as `List ℚ`:
the claims under scrutiny are exact arithmetic identities, so samples and
gains are embedded as rationals.  Each operation is translated loop-for-loop
from the source; in-place functions return the new buffer contents, reads
use `List.getD · 0` (in-contract indices are always in bounds), and the
`numSamples` argument of the C functions is the length of the buffer being
written, exactly as in the library's calling contract.
-/

namespace SampleUtil

/-- `SampleUtil::applyGain` (sample.cpp:114-128): fast paths for gain one
(return) and gain zero (clear), otherwise multiply every sample. -/
def applyGain (pBuffer : List ℚ) (gain : ℚ) : List ℚ :=
  if gain = 1 then pBuffer
  else if gain = 0 then List.replicate pBuffer.length 0
  else pBuffer.map (fun x => x * gain)

/-- The integer divisor `numSamples / 2` used in every ramping-gain delta
computation (sample.cpp:141-142, 266-267, 364-365, 967). -/
def rampDivisor (numSamples : ℕ) : ℕ := numSamples / 2

/-- The ramp step `(new_gain - old_gain) / CSAMPLE_GAIN(numSamples / 2)`
(sample.cpp:141-142). -/
def gainDelta (old_gain new_gain : ℚ) (numSamples : ℕ) : ℚ :=
  (new_gain - old_gain) / ((rampDivisor numSamples : ℕ) : ℚ)

/-- `SampleUtil::applyRampingGain` (sample.cpp:131-158): fast paths for
both-one (return) and both-zero (clear); otherwise, when the computed delta
is nonzero, each whole stereo frame `i < numSamples / 2` is multiplied by
`start_gain + gain_delta * i` with `start_gain = old_gain + gain_delta`,
and when the delta is zero every sample is multiplied by `old_gain`. -/
def applyRampingGain (pBuffer : List ℚ) (old_gain new_gain : ℚ) : List ℚ :=
  if old_gain = 1 ∧ new_gain = 1 then pBuffer
  else if old_gain = 0 ∧ new_gain = 0 then List.replicate pBuffer.length 0
  else
    let n := pBuffer.length
    let gain_delta := gainDelta old_gain new_gain n
    if gain_delta ≠ 0 then
      List.ofFn (fun j : Fin n =>
        if (j : ℕ) < 2 * (n / 2) then
          pBuffer.getD j 0 * (old_gain + gain_delta + gain_delta * (((j : ℕ) / 2 : ℕ) : ℚ))
        else pBuffer.getD j 0)
    else pBuffer.map (fun x => x * old_gain)

/-- `SampleUtil::maxAbsAmplitude` (sample.cpp:463-473): the running maximum
is seeded with `pBuffer[0]` (with its sign, no absolute value taken), then
compared against `|pBuffer[i]|` for `i = 1 .. numSamples-1`. -/
def maxAbsAmplitude (pBuffer : List ℚ) : ℚ :=
  pBuffer.tail.foldl (fun m x => if |x| > m then |x| else m) (pBuffer.headD 0)

/-- `SampleUtil::copyWithRampingGain` (sample.cpp:350-384): fast paths copy
(both gains one) and clear (both gains zero); otherwise per-stereo-frame
ramp exactly as `applyRampingGain`, reading from `pSrc` and writing `pDest`.
Samples of `pDest` beyond the `2 * (numSamples / 2)` written by the ramp
loop keep their previous contents. -/
def copyWithRampingGain (pDest pSrc : List ℚ) (old_gain new_gain : ℚ) : List ℚ :=
  if old_gain = 1 ∧ new_gain = 1 then
    List.ofFn (fun j : Fin pDest.length => pSrc.getD j 0)
  else if old_gain = 0 ∧ new_gain = 0 then List.replicate pDest.length 0
  else
    let n := pDest.length
    let gain_delta := gainDelta old_gain new_gain n
    if gain_delta ≠ 0 then
      List.ofFn (fun j : Fin n =>
        if (j : ℕ) < 2 * (n / 2) then
          pSrc.getD j 0 * (old_gain + gain_delta + gain_delta * (((j : ℕ) / 2 : ℕ) : ℚ))
        else pDest.getD j 0)
    else
      List.ofFn (fun j : Fin n => pSrc.getD j 0 * old_gain)

/-- The per-frame channel sum accumulated by the inner loop of
`SampleUtil::mixMultichannelToMono` (sample.cpp:762-765). -/
def frameSum (pSrc : List ℚ) (chCount i : ℕ) : ℚ :=
  (List.range chCount).foldl (fun s ch => s + pSrc.getD (i * chCount + ch) 0) 0

/-- `SampleUtil::mixMultichannelToMono` (sample.cpp:757-768).  The channel
count is read from the global `mixxx::kEngineChannelOutputCount` declared in
`engine/engine.h`, which is not part of the sources; per the spec ("averages
all N channels of each frame", "engine output channel count") it is modelled
as an explicit parameter `chCount`.  For each frame `i < numSamples / chCount`
the destination receives the frame sum times `mixScale = 1 / chCount`;
destination entries past the written prefix keep their contents. -/
def mixMultichannelToMono (chCount : ℕ) (pDest pSrc : List ℚ) (numSamples : ℕ) : List ℚ :=
  List.ofFn (fun j : Fin pDest.length =>
    if (j : ℕ) < numSamples / chCount then
      frameSum pSrc chCount j * (1 / (chCount : ℚ))
    else pDest.getD j 0)

/-- `SampleUtil::copyWithRampingNormalization` (sample.cpp:160-175): fold the
source to mono into the destination's prefix, measure `maxAbsAmplitude` of
that prefix, pick gain `1` on exact silence and `targetAmplitude / max`
otherwise, then ramp-copy the source over the destination and return the
gain.  The engine channel count is the modelled parameter `chCount` (see
`mixMultichannelToMono`). -/
def copyWithRampingNormalization (chCount : ℕ) (pDest pSrc : List ℚ)
    (old_gain targetAmplitude : ℚ) : List ℚ × ℚ :=
  let numSamples := pDest.length
  let numMonoSamples := numSamples / chCount
  let dest1 := mixMultichannelToMono chCount pDest pSrc numSamples
  let maxAmplitude := maxAbsAmplitude (dest1.take numMonoSamples)
  let gain := if maxAmplitude = 0 then 1 else targetAmplitude / maxAmplitude
  (copyWithRampingGain dest1 pSrc old_gain gain, gain)

/-- `SAMPLE_MIN` of the 16-bit fixed-point sample type (`SAMPLE = int16_t`). -/
def SAMPLE_MINIMUM : ℤ := -32768

/-- `SAMPLE_MAX` of the 16-bit fixed-point sample type. -/
def SAMPLE_MAXIMUM : ℤ := 32767

/-- `kConversionFactor = SAMPLE_MINIMUM * -1.0f` (sample.cpp:393, 406). -/
def kConversionFactor : ℚ := -(SAMPLE_MINIMUM : ℚ)

/-- Truncation toward zero, the semantics of C++'s
`static_cast<SAMPLE>(float)` for in-range values (sample.cpp:409). -/
def truncToInt (q : ℚ) : ℤ := if 0 ≤ q then ⌊q⌋ else ⌈q⌉

/-- Modelled from the spec: `math_clamp` lives in `util/math.h`, which is not
part of the sources; the spec says "clamp to `[fixedMin, fixedMax]` before
truncating", i.e. the usual clamp of a value into a closed interval. -/
def math_clamp (value low high : ℚ) : ℚ := max low (min value high)

/-- The per-sample body of `SampleUtil::convertS16ToFloat32`
(sample.cpp:387-398): divide by the negated fixed-point minimum. -/
def s16ToFloatSample (s : ℤ) : ℚ := (s : ℚ) / kConversionFactor

/-- The per-sample body of `SampleUtil::convertFloat32ToS16`
(sample.cpp:401-413): scale by the conversion factor, clamp to
`[SAMPLE_MINIMUM, SAMPLE_MAXIMUM]`, truncate to the integer sample type. -/
def floatToS16Sample (x : ℚ) : ℤ :=
  truncToInt (math_clamp (x * kConversionFactor) (SAMPLE_MINIMUM : ℚ) (SAMPLE_MAXIMUM : ℚ))

/-- `SampleUtil::convertS16ToFloat32` on a whole buffer. -/
def convertS16ToFloat32 (pSrc : List ℤ) : List ℚ := pSrc.map s16ToFloatSample

/-- `SampleUtil::convertFloat32ToS16` on a whole buffer. -/
def convertFloat32ToS16 (pSrc : List ℚ) : List ℤ := pSrc.map floatToS16Sample

/-- `SampleUtil::linearCrossfadeStereoBuffersOut` (sample.cpp:557-576):
`cross_inc = 1 / (numSamples / 2)`; for each sample `j` of a whole stereo
frame `i = j / 2 < numSamples / 2`, with `cross_mix = cross_inc * i`, the
fade-out destination is scaled by `1 - cross_mix` and the fade-in source is
added scaled by `cross_mix`.  (The source runs two loops, one over even and
one over odd indices; both apply this same per-index update.) -/
def linearCrossfadeStereoBuffersOut (pDestSrcFadeOut pSrcFadeIn : List ℚ) : List ℚ :=
  let n := pDestSrcFadeOut.length
  let cross_inc : ℚ := 1 / ((n / 2 : ℕ) : ℚ)
  List.ofFn (fun j : Fin n =>
    if (j : ℕ) < 2 * (n / 2) then
      pDestSrcFadeOut.getD j 0 * (1 - cross_inc * (((j : ℕ) / 2 : ℕ) : ℚ))
        + pSrcFadeIn.getD j 0 * (cross_inc * (((j : ℕ) / 2 : ℕ) : ℚ))
    else pDestSrcFadeOut.getD j 0)

/-- `SampleUtil::linearCrossfadeStereoBuffersIn` (sample.cpp:646-664): the
fade-in destination is scaled by `cross_mix` and the fade-out source is
added scaled by `1 - cross_mix`, with the same `cross_mix` schedule as the
`Out` variant. -/
def linearCrossfadeStereoBuffersIn (pDestSrcFadeIn pSrcFadeOut : List ℚ) : List ℚ :=
  let n := pDestSrcFadeIn.length
  let cross_inc : ℚ := 1 / ((n / 2 : ℕ) : ℚ)
  List.ofFn (fun j : Fin n =>
    if (j : ℕ) < 2 * (n / 2) then
      pDestSrcFadeIn.getD j 0 * (cross_inc * (((j : ℕ) / 2 : ℕ) : ℚ))
        + pSrcFadeOut.getD j 0 * (1 - cross_inc * (((j : ℕ) / 2 : ℕ) : ℚ))
    else pDestSrcFadeIn.getD j 0)

/-- The accumulated value of one output slot of `mixMultichannelToStereo`:
sum over the listed stereo sub-groups (`stems`) of the source sample of
frame `i`, channel `c` (sample.cpp:786-794). -/
def stemSum (pSrc : List ℚ) (numChannels : ℕ) (stems : List ℕ) (i c : ℕ) : ℚ :=
  stems.foldl (fun s stemIdx => s + pSrc.getD (numChannels * i + stemIdx * 2 + c) 0) 0

/-- The masked overload of `SampleUtil::mixMultichannelToStereo`
(sample.cpp:771-796): clear the first `numFrames * 2` destination samples,
then accumulate every stereo sub-group whose bit in `excludeChannelMask` is
clear (`excludeChannelMask >> stemIdx & 0b1`). -/
def mixMultichannelToStereoMasked (pDest pSrc : List ℚ)
    (numFrames numChannels excludeChannelMask : ℕ) : List ℚ :=
  let stems := (List.range (numChannels / 2)).filter
    (fun stemIdx => (excludeChannelMask >>> stemIdx) % 2 == 0)
  List.ofFn (fun j : Fin pDest.length =>
    if (j : ℕ) < numFrames * 2 then
      stemSum pSrc numChannels stems ((j : ℕ) / 2) ((j : ℕ) % 2)
    else pDest.getD j 0)

/-- The unmasked overload of `SampleUtil::mixMultichannelToStereo`
(sample.cpp:799-818): identical accumulation over all stereo sub-groups. -/
def mixMultichannelToStereo (pDest pSrc : List ℚ) (numFrames numChannels : ℕ) : List ℚ :=
  let stems := List.range (numChannels / 2)
  List.ofFn (fun j : Fin pDest.length =>
    if (j : ℕ) < numFrames * 2 then
      stemSum pSrc numChannels stems ((j : ℕ) / 2) ((j : ℕ) % 2)
    else pDest.getD j 0)

/-- The condition under which `applyRampingGain` and `copyWithRampingGain`
reach the `gain_delta` computation: neither the both-one nor the both-zero
fast path fires. -/
def reachesRampDelta (old_gain new_gain : ℚ) : Prop :=
  ¬(old_gain = 1 ∧ new_gain = 1) ∧ ¬(old_gain = 0 ∧ new_gain = 0)

instance (g0 g1 : ℚ) : Decidable (reachesRampDelta g0 g1) := by
  unfold reachesRampDelta; infer_instance

end SampleUtil

namespace SampleSpec

/-- Reference (spec-side) definition: the arithmetic mean of the channel
values of frame `i` of an interleaved buffer. -/
def frameMean (pSrc : List ℚ) (chCount i : ℕ) : ℚ :=
  ((List.range chCount).map (fun ch => pSrc.getD (i * chCount + ch) 0)).sum / (chCount : ℚ)

/-- Reference (spec-side) definition: the mono fold of an interleaved
buffer, one mean per whole frame. -/
def monoFold (chCount : ℕ) (pSrc : List ℚ) : List ℚ :=
  List.ofFn (fun i : Fin (pSrc.length / chCount) => frameMean pSrc chCount i)

/-- Reference (spec-side) definition: the peak absolute amplitude of a
buffer, `max` of the absolute values of all samples (0 for the empty
buffer). -/
def peakAbs (l : List ℚ) : ℚ := (l.map (fun x => |x|)).foldl max 0

end SampleSpec


namespace SampleUtil

/-- Reading a written buffer: `List.ofFn` composed with `getD` at an
in-bounds index. -/
theorem getD_ofFn {n : ℕ} (f : Fin n → ℚ) (j : ℕ) (h : j < n) :
    (List.ofFn f).getD j 0 = f ⟨j, h⟩ := by
  have hl : j < (List.ofFn f).length := by simpa using h
  rw [List.getD_eq_getElem _ _ hl, List.getElem_ofFn]

/-- The running-max loop body of `maxAbsAmplitude` is a fold of `max` over
absolute values. -/
theorem foldl_absmax_eq (rest : List ℚ) :
    ∀ b : ℚ, rest.foldl (fun m x => if |x| > m then |x| else m) b
      = (rest.map (fun x => |x|)).foldl max b := by
  induction rest with
  | nil => intro b; rfl
  | cons x xs ih =>
    intro b
    simp only [List.foldl_cons, List.map_cons]
    rw [ih]
    congr 1
    rcases le_or_lt |x| b with h | h
    · rw [if_neg (not_lt.mpr h), max_eq_left h]
    · rw [if_pos h, max_eq_right h.le]

/-- A `max`-fold is bounded below by its initial value. -/
theorem le_foldl_max (l : List ℚ) : ∀ b : ℚ, b ≤ l.foldl max b := by
  induction l with
  | nil => intro b; exact le_rfl
  | cons x xs ih => intro b; exact le_trans (le_max_left b x) (ih (max b x))

/-- A `max`-fold is bounded below by every list element. -/
theorem mem_le_foldl_max (l : List ℚ) : ∀ (b x : ℚ), x ∈ l → x ≤ l.foldl max b := by
  induction l with
  | nil => intro b x hx; cases hx
  | cons y ys ih =>
    intro b x hx
    rcases List.mem_cons.mp hx with rfl | hx
    · exact le_trans (le_max_right b x) (le_foldl_max ys (max b x))
    · exact ih (max b y) x hx

/-- C7: `applyGain` with gain one leaves the buffer unchanged; with gain
zero it sets every sample to zero (a buffer of `buf.length` zeros). -/
theorem applyGain_one_and_zero (pBuffer : List ℚ) :
    applyGain pBuffer 1 = pBuffer ∧
    applyGain pBuffer 0 = List.replicate pBuffer.length 0 := by
  constructor
  · simp [applyGain]
  · simp [applyGain]

/-- C1 counterexample: on the one-sample buffer `[-1]`, `maxAbsAmplitude`
returns `-1`, a negative value, refuting both "the result is the maximum of
the absolute values" and "the result is always non-negative and at least
`|pBuffer[0]|`". -/
theorem maxAbsAmplitude_neg_cex :
    maxAbsAmplitude [(-1 : ℚ)] = -1 ∧ maxAbsAmplitude [(-1 : ℚ)] < 0 := by
  constructor
  · rfl
  · rw [show maxAbsAmplitude [(-1 : ℚ)] = -1 from rfl]; norm_num

/-- C1 amended: for `numSamples ≥ 1`, `maxAbsAmplitude` returns the maximum
of `pBuffer[0]` (with its sign) and the absolute values `|pBuffer[i]|` for
`i ∈ [1, numSamples)`; hence the result is at least `pBuffer[0]` and at
least every `|pBuffer[i]|` with `i ≥ 1`, but not necessarily at least
`|pBuffer[0]|`. -/
theorem maxAbsAmplitude_cons (b : ℚ) (rest : List ℚ) :
    maxAbsAmplitude (b :: rest) = (rest.map (fun x => |x|)).foldl max b ∧
    b ≤ maxAbsAmplitude (b :: rest) ∧
    ∀ x ∈ rest, |x| ≤ maxAbsAmplitude (b :: rest) := by
  have he : maxAbsAmplitude (b :: rest) = (rest.map (fun x => |x|)).foldl max b := by
    simp only [maxAbsAmplitude, List.tail_cons, List.headD_cons]
    exact foldl_absmax_eq rest b
  refine ⟨he, ?_, ?_⟩
  · rw [he]; exact le_foldl_max _ b
  · intro x hx
    rw [he]
    exact mem_le_foldl_max _ b |x| (List.mem_map_of_mem _ hx)

/-- C1 amended, witness at the concrete buffer `[-5, 1]`. -/
theorem maxAbsAmplitude_cons_witness :
    maxAbsAmplitude ((-5 : ℚ) :: [1]) = (([1] : List ℚ).map (fun x => |x|)).foldl max (-5) :=
  (maxAbsAmplitude_cons (-5) [1]).1

/-- C8 counterexample: `numSamples = 1` is nonzero and the call
`applyRampingGain(buf, 1, 0, 1)` reaches the gain-delta computation (neither
fast path fires), yet the divisor `numSamples / 2` is zero. -/
theorem rampDivisor_one_cex :
    reachesRampDelta 1 0 ∧ (1 : ℕ) ≠ 0 ∧ rampDivisor 1 = 0 := by
  refine ⟨⟨?_, ?_⟩, by decide, by decide⟩
  · rintro ⟨-, h⟩; norm_num at h
  · rintro ⟨h, -⟩; norm_num at h

/-- C8 amended: for every call with `numSamples ≥ 2` that reaches the
gain-delta computation, the divisor `numSamples / 2` is nonzero (also as a
`CSAMPLE_GAIN` value), so the delta `(new - old) / (numSamples / 2)` divides
by a nonzero quantity. -/
theorem rampDivisor_nonzero (old_gain new_gain : ℚ) (numSamples : ℕ)
    (h2 : 2 ≤ numSamples) (hreach : reachesRampDelta old_gain new_gain) :
    0 < rampDivisor numSamples ∧
    ((rampDivisor numSamples : ℕ) : ℚ) ≠ 0 ∧
    gainDelta old_gain new_gain numSamples
      = (new_gain - old_gain) / ((rampDivisor numSamples : ℕ) : ℚ) := by
  have h : 0 < rampDivisor numSamples := Nat.div_pos h2 (by norm_num)
  exact ⟨h, Nat.cast_ne_zero.mpr h.ne', rfl⟩

/-- C8 amended, witness at `numSamples = 2`, gains `1 → 0`. -/
theorem rampDivisor_nonzero_witness :
    0 < rampDivisor 2 ∧ ((rampDivisor 2 : ℕ) : ℚ) ≠ 0 ∧
    gainDelta 1 0 2 = ((0 : ℚ) - 1) / ((rampDivisor 2 : ℕ) : ℚ) :=
  rampDivisor_nonzero 1 0 2 (by norm_num)
    ⟨fun h => by have := h.2; norm_num at this, fun h => by have := h.1; norm_num at this⟩

end SampleUtil

namespace SampleUtil

/-- Truncation toward zero is the identity on integer values. -/
theorem truncToInt_intCast (n : ℤ) : truncToInt ((n : ℤ) : ℚ) = n := by
  unfold truncToInt
  split
  · exact Int.floor_intCast n
  · exact Int.ceil_intCast n

/-- The conversion factor is the negated fixed-point minimum, 32768. -/
theorem kConversionFactor_eq : kConversionFactor = 32768 := by
  norm_num [kConversionFactor, SAMPLE_MINIMUM]

/-- Scalar round trip: fixed → float → fixed is the identity on the whole
fixed-point range. -/
theorem floatToS16_s16ToFloat (s : ℤ) (h1 : SAMPLE_MINIMUM ≤ s) (h2 : s ≤ SAMPLE_MAXIMUM) :
    floatToS16Sample (s16ToFloatSample s) = s := by
  have hmin : ((-32768 : ℤ) : ℚ) ≤ (s : ℚ) := by
    exact_mod_cast h1
  have hmax : (s : ℚ) ≤ ((32767 : ℤ) : ℚ) := by
    exact_mod_cast h2
  have hscale : s16ToFloatSample s * kConversionFactor = (s : ℚ) := by
    rw [s16ToFloatSample, kConversionFactor_eq]
    exact div_mul_cancel₀ (s : ℚ) (by norm_num)
  rw [floatToS16Sample, hscale, math_clamp, SAMPLE_MINIMUM, SAMPLE_MAXIMUM]
  rw [min_eq_left (by exact_mod_cast hmax), max_eq_right (by exact_mod_cast hmin)]
  exact truncToInt_intCast s

/-- C4: converting any 16-bit fixed-point sample `s ∈ [-32768, 32767]` with
`convertS16ToFloat32` and back with `convertFloat32ToS16` reproduces `s`
exactly; in particular the extreme `-32768` round-trips exactly, and the
float input `+1.0` clamps to `32767`. -/
theorem convertS16_roundTrip (s : ℤ) (h1 : SAMPLE_MINIMUM ≤ s) (h2 : s ≤ SAMPLE_MAXIMUM) :
    convertFloat32ToS16 (convertS16ToFloat32 [s]) = [s] ∧
    convertFloat32ToS16 (convertS16ToFloat32 [SAMPLE_MINIMUM]) = [SAMPLE_MINIMUM] ∧
    convertFloat32ToS16 [1] = [SAMPLE_MAXIMUM] := by
  refine ⟨?_, ?_, ?_⟩
  · simp only [convertS16ToFloat32, convertFloat32ToS16, List.map_cons, List.map_nil]
    rw [floatToS16_s16ToFloat s h1 h2]
  · simp only [convertS16ToFloat32, convertFloat32ToS16, List.map_cons, List.map_nil]
    rw [floatToS16_s16ToFloat SAMPLE_MINIMUM le_rfl (by norm_num [SAMPLE_MINIMUM, SAMPLE_MAXIMUM])]
  · simp only [convertFloat32ToS16, List.map_cons, List.map_nil]
    have h : floatToS16Sample 1 = SAMPLE_MAXIMUM := by
      rw [floatToS16Sample, kConversionFactor_eq, math_clamp, SAMPLE_MINIMUM, SAMPLE_MAXIMUM]
      rw [show max ((-32768 : ℤ) : ℚ) (min (1 * 32768) ((32767 : ℤ) : ℚ))
            = ((32767 : ℤ) : ℚ) by push_cast; norm_num]
      rw [truncToInt_intCast]
    rw [h]

/-- C4, witness at the extreme negative sample `s = -32768`. -/
theorem convertS16_roundTrip_witness :
    convertFloat32ToS16 (convertS16ToFloat32 [(-32768 : ℤ)]) = [(-32768 : ℤ)] := by
  have h := convertS16_roundTrip (-32768)
    (by norm_num [SAMPLE_MINIMUM]) (by norm_num [SAMPLE_MINIMUM, SAMPLE_MAXIMUM])
  exact h.1

/-- C10: on a buffer of odd length whose computed ramp delta is nonzero,
`applyRampingGain` processes exactly `numSamples / 2` whole stereo frames
and leaves the final sample `pBuffer[numSamples - 1]` unchanged. -/
theorem applyRampingGain_odd_last (pBuffer : List ℚ) (old_gain new_gain : ℚ)
    (hodd : pBuffer.length % 2 = 1)
    (hd : gainDelta old_gain new_gain pBuffer.length ≠ 0) :
    (applyRampingGain pBuffer old_gain new_gain).length = pBuffer.length ∧
    (applyRampingGain pBuffer old_gain new_gain).getD (pBuffer.length - 1) 0
      = pBuffer.getD (pBuffer.length - 1) 0 := by
  have h1 : ¬(old_gain = 1 ∧ new_gain = 1) := by
    rintro ⟨rfl, rfl⟩
    exact hd (by simp [gainDelta])
  have h0 : ¬(old_gain = 0 ∧ new_gain = 0) := by
    rintro ⟨rfl, rfl⟩
    exact hd (by simp [gainDelta])
  rw [applyRampingGain, if_neg h1, if_neg h0, if_pos hd]
  constructor
  · simp
  · have hlt : pBuffer.length - 1 < pBuffer.length := by omega
    rw [getD_ofFn _ _ hlt]
    have hout : ¬(pBuffer.length - 1 < 2 * (pBuffer.length / 2)) := by omega
    rw [if_neg hout]

/-- C10, witness at the odd-length buffer `[1, 1, 2]` with gains `0 → 1`. -/
theorem applyRampingGain_odd_last_witness :
    (applyRampingGain [1, 1, 2] 0 1).getD 2 0 = ([1, 1, 2] : List ℚ).getD 2 0 := by
  have h := applyRampingGain_odd_last [1, 1, 2] 0 1 (by decide)
    (by norm_num [gainDelta, rampDivisor])
  simpa using h.2

end SampleUtil

namespace SampleUtil

/-- C2 counterexample: with buffer `[1, 1]`, gains `0 → 1`, `n = 2`, the
ramp step is `1` and the single frame is multiplied by `g0 + step = 1`, so
the last applied gain equals `g1 = 1` exactly; it does not differ from `g1`
by one ramp-step as claimed (`|lastGain - g1| = 0 ≠ |step| = 1`). -/
theorem applyRampingGain_last_cex :
    (applyRampingGain [1, 1] 0 1).getD 1 0 = 1 ∧
    gainDelta 0 1 2 = 1 ∧
    ¬ |(applyRampingGain [1, 1] 0 1).getD 1 0 - 1| = |gainDelta 0 1 2| := by
  have h1 : (applyRampingGain [1, 1] 0 1).getD 1 0 = 1 := by
    norm_num [applyRampingGain, gainDelta, rampDivisor, List.ofFn_succ]
  have h2 : gainDelta 0 1 2 = 1 := by
    norm_num [gainDelta, rampDivisor]
  refine ⟨h1, h2, ?_⟩
  rw [h1, h2]
  norm_num

/-- C2 amended: for even `numSamples = n ≥ 2` and gains not both one, not
both zero, with nonzero computed delta, `applyRampingGain` multiplies both
samples of stereo frame `i` (indices `2i`, `2i+1`) by
`g0 + (i+1) * step` with `step = (g1 - g0) / (n/2)`; the first applied gain
differs from `g0` by exactly one ramp-step, and the last applied gain
(frame `n/2 - 1`) equals `g1` exactly. -/
theorem applyRampingGain_frames (pBuffer : List ℚ) (g0 g1 : ℚ)
    (heven : pBuffer.length % 2 = 0) (hlen : 2 ≤ pBuffer.length)
    (hno : ¬(g0 = 1 ∧ g1 = 1)) (hnz : ¬(g0 = 0 ∧ g1 = 0))
    (hd : gainDelta g0 g1 pBuffer.length ≠ 0) :
    (∀ j, j < pBuffer.length →
      (applyRampingGain pBuffer g0 g1).getD j 0
        = pBuffer.getD j 0
            * (g0 + gainDelta g0 g1 pBuffer.length * (((j / 2 : ℕ) : ℚ) + 1))) ∧
    (g0 + gainDelta g0 g1 pBuffer.length * (((0 : ℕ) : ℚ) + 1)) - g0
      = gainDelta g0 g1 pBuffer.length ∧
    g0 + gainDelta g0 g1 pBuffer.length * (((pBuffer.length / 2 - 1 : ℕ) : ℚ) + 1) = g1 := by
  refine ⟨?_, by push_cast; ring, ?_⟩
  · intro j hj
    rw [applyRampingGain, if_neg hno, if_neg hnz, if_pos hd]
    have hin : j < 2 * (pBuffer.length / 2) := by omega
    rw [getD_ofFn _ _ hj, if_pos hin]
    ring
  · have hhalf : 1 ≤ pBuffer.length / 2 := by omega
    have hcast : ((pBuffer.length / 2 - 1 : ℕ) : ℚ) + 1 = ((pBuffer.length / 2 : ℕ) : ℚ) := by
      push_cast [Nat.cast_sub hhalf]
      ring
    rw [hcast, gainDelta]
    have hne : (((rampDivisor pBuffer.length : ℕ)) : ℚ) ≠ 0 := by
      have : 0 < rampDivisor pBuffer.length := Nat.div_pos hlen (by norm_num)
      exact Nat.cast_ne_zero.mpr this.ne'
    rw [rampDivisor]
    rw [rampDivisor] at hne
    rw [div_mul_cancel₀ _ hne]
    ring

/-- C2 amended, witness at buffer `[1, 1, 1, 1]`, gains `0 → 1` (step
`1/2`), frame 0. -/
theorem applyRampingGain_frames_witness :
    (applyRampingGain [1, 1, 1, 1] 0 1).getD 0 0
      = (1 : ℚ) * (0 + gainDelta 0 1 4 * (((0 : ℕ) : ℚ) + 1)) := by
  have h := (applyRampingGain_frames [1, 1, 1, 1] 0 1 (by decide) (by decide)
    (by norm_num) (by norm_num) (by norm_num [gainDelta, rampDivisor])).1 0 (by norm_num)
  simpa using h

end SampleUtil

namespace SampleUtil

/-- C3 counterexample: with `A = [1, 1]` fading out and `B = [0, 0]` fading
in, the crossfade at frame 0 (where `mix = 0/(n/2) = 0`) yields `A`'s value
`1`, not the claimed reference `mix * A + (1 - mix) * B = 0`. -/
theorem crossfade_reference_cex :
    (linearCrossfadeStereoBuffersOut [1, 1] [0, 0]).getD 0 0 = 1 ∧
    (linearCrossfadeStereoBuffersOut [1, 1] [0, 0]).getD 0 0
      ≠ (0 : ℚ) * 1 + (1 - 0) * 0 := by
  have h : (linearCrossfadeStereoBuffersOut [1, 1] [0, 0]).getD 0 0 = 1 := by
    norm_num [linearCrossfadeStereoBuffersOut, List.ofFn_succ]
  exact ⟨h, by rw [h]; norm_num⟩

/-- C3 amended: for stereo buffers `A`, `B` of equal even length `n`, the
fade-out run on `A` (with `B` fading in) and the fade-in run on `B` (with
`A` fading out) agree at every sample position, and at sample `j` of frame
`i = j/2`, with `mix = i / (n/2)`, the common value is
`(1 - mix) * A[j] + mix * B[j]` (the fade-out operand `A` carries the
`1 - mix` weight). -/
theorem crossfade_out_in_agree (A B : List ℚ) (hlen : B.length = A.length)
    (heven : A.length % 2 = 0) (j : ℕ) (hj : j < A.length) :
    (linearCrossfadeStereoBuffersOut A B).getD j 0
      = (linearCrossfadeStereoBuffersIn B A).getD j 0 ∧
    (linearCrossfadeStereoBuffersOut A B).getD j 0
      = (1 - ((j / 2 : ℕ) : ℚ) / ((A.length / 2 : ℕ) : ℚ)) * A.getD j 0
        + (((j / 2 : ℕ) : ℚ) / ((A.length / 2 : ℕ) : ℚ)) * B.getD j 0 := by
  have hjB : j < B.length := hlen ▸ hj
  have hin : j < 2 * (A.length / 2) := by omega
  have hinB : j < 2 * (B.length / 2) := by omega
  have hout : (linearCrossfadeStereoBuffersOut A B).getD j 0
      = A.getD j 0 * (1 - 1 / ((A.length / 2 : ℕ) : ℚ) * ((j / 2 : ℕ) : ℚ))
        + B.getD j 0 * (1 / ((A.length / 2 : ℕ) : ℚ) * ((j / 2 : ℕ) : ℚ)) := by
    rw [linearCrossfadeStereoBuffersOut]
    rw [getD_ofFn _ _ hj, if_pos hin]
  have hinn : (linearCrossfadeStereoBuffersIn B A).getD j 0
      = B.getD j 0 * (1 / ((B.length / 2 : ℕ) : ℚ) * ((j / 2 : ℕ) : ℚ))
        + A.getD j 0 * (1 - 1 / ((B.length / 2 : ℕ) : ℚ) * ((j / 2 : ℕ) : ℚ)) := by
    rw [linearCrossfadeStereoBuffersIn]
    rw [getD_ofFn _ _ hjB, if_pos hinB]
  constructor
  · rw [hout, hinn, hlen]
    ring
  · rw [hout, one_div_mul_eq_div]
    ring

/-- C3 amended, witness at `A = [1, 1, 1, 1]`, `B = [3, 3, 3, 3]`,
sample `j = 2` (frame 1, `mix = 1/2`). -/
theorem crossfade_out_in_agree_witness :
    (linearCrossfadeStereoBuffersOut [1, 1, 1, 1] [3, 3, 3, 3]).getD 2 0
      = (linearCrossfadeStereoBuffersIn [3, 3, 3, 3] [1, 1, 1, 1]).getD 2 0 :=
  (crossfade_out_in_agree [1, 1, 1, 1] [3, 3, 3, 3] rfl (by decide) 2 (by norm_num)).1

/-- C9: the masked overload of `mixMultichannelToStereo` with
`excludeChannelMask = 0` skips no stereo sub-group, so it writes exactly the
same destination contents as the unmasked overload on all inputs. -/
theorem mixMultichannelToStereo_mask_zero (pDest pSrc : List ℚ)
    (numFrames numChannels : ℕ) :
    mixMultichannelToStereoMasked pDest pSrc numFrames numChannels 0
      = mixMultichannelToStereo pDest pSrc numFrames numChannels := by
  have hfilter : (List.range (numChannels / 2)).filter
      (fun stemIdx => (0 >>> stemIdx) % 2 == 0) = List.range (numChannels / 2) := by
    simp [Nat.zero_shiftRight]
  simp only [mixMultichannelToStereoMasked, mixMultichannelToStereo, hfilter]

end SampleUtil

namespace SampleUtil

/-- The accumulating inner loop of `mixMultichannelToMono` computes the sum
of the frame's channel samples. -/
theorem frameSum_eq_sum (pSrc : List ℚ) (chCount i : ℕ) :
    frameSum pSrc chCount i
      = ((List.range chCount).map (fun ch => pSrc.getD (i * chCount + ch) 0)).sum := by
  rw [frameSum, List.sum_eq_foldl, List.foldl_map]

/-- C6: for a source whose length is an exact multiple of the engine output
channel count `chCount`, `mixMultichannelToMono` writes at each frame `i`
the arithmetic mean of that frame's channel values; a frame whose channels
all equal `v` (in particular an all-zero frame, `v = 0`) yields exactly
`v`. -/
theorem mixMultichannelToMono_mean (chCount : ℕ) (pDest pSrc : List ℚ)
    (hch : 0 < chCount) (hdvd : chCount ∣ pSrc.length) (i : ℕ)
    (hiframe : i < pSrc.length / chCount) (hidest : i < pDest.length) :
    (mixMultichannelToMono chCount pDest pSrc pSrc.length).getD i 0
      = SampleSpec.frameMean pSrc chCount i ∧
    (∀ v : ℚ, (∀ ch, ch < chCount → pSrc.getD (i * chCount + ch) 0 = v) →
      (mixMultichannelToMono chCount pDest pSrc pSrc.length).getD i 0 = v) := by
  have hmean : (mixMultichannelToMono chCount pDest pSrc pSrc.length).getD i 0
      = SampleSpec.frameMean pSrc chCount i := by
    rw [mixMultichannelToMono, getD_ofFn _ _ hidest, if_pos hiframe]
    rw [frameSum_eq_sum, SampleSpec.frameMean, mul_one_div]
  refine ⟨hmean, ?_⟩
  intro v hv
  rw [hmean, SampleSpec.frameMean]
  have hmap : (List.range chCount).map (fun ch => pSrc.getD (i * chCount + ch) 0)
      = List.replicate chCount v := by
    rw [List.map_congr_left (g := fun _ => v) ?_]
    · rw [show (fun _ : ℕ => v) = Function.const ℕ v from rfl, List.map_const,
        List.length_range]
    · intro a ha
      exact hv a (List.mem_range.mp ha)
  rw [hmap, List.sum_replicate, nsmul_eq_mul]
  exact mul_div_cancel_left₀ v (Nat.cast_ne_zero.mpr hch.ne')

/-- C6, witness: stereo source `[1, 3, 5, 5]`, frame 1 has mean `5`. -/
theorem mixMultichannelToMono_mean_witness :
    (mixMultichannelToMono 2 [0, 0] [1, 3, 5, 5] (List.length [1, 3, 5, 5])).getD 1 0
      = SampleSpec.frameMean [1, 3, 5, 5] 2 1 :=
  (mixMultichannelToMono_mean 2 [0, 0] [1, 3, 5, 5] (by norm_num) (by decide) 1
    (by norm_num) (by norm_num)).1

/-- The prefix of the destination written by the mono-fold step of
`copyWithRampingNormalization` is exactly the per-frame-mean mono fold of
the source. -/
theorem monoFold_take (chCount : ℕ) (pDest pSrc : List ℚ)
    (hlen : pSrc.length = pDest.length) :
    (mixMultichannelToMono chCount pDest pSrc pDest.length).take (pDest.length / chCount)
      = SampleSpec.monoFold chCount pSrc := by
  apply List.ext_getElem
  · rw [List.length_take]
    simp only [mixMultichannelToMono, List.length_ofFn, SampleSpec.monoFold, hlen]
    exact Nat.min_eq_left (Nat.div_le_self _ _)
  · intro k h1 h2
    have hk : k < pDest.length / chCount := by
      simpa [SampleSpec.monoFold, hlen] using h2
    rw [List.getElem_take]
    simp only [mixMultichannelToMono, SampleSpec.monoFold, List.getElem_ofFn]
    rw [if_pos hk, frameSum_eq_sum, SampleSpec.frameMean, mul_one_div]

/-- C5 counterexample: with stereo source `[-6, 0, 1, 1]` and target
amplitude `1`, the mono fold is `[-3, 1]`, whose peak absolute amplitude is
`3`, so the claimed return value is `1/3`; but `maxAbsAmplitude` seeds its
maximum with the signed first fold sample `-3` and the function returns
`1/1 = 1`. -/
theorem copyWithRampingNormalization_cex :
    (copyWithRampingNormalization 2 [0, 0, 0, 0] [-6, 0, 1, 1] 0 1).2 = 1 ∧
    SampleSpec.peakAbs (SampleSpec.monoFold 2 [-6, 0, 1, 1]) = 3 ∧
    (copyWithRampingNormalization 2 [0, 0, 0, 0] [-6, 0, 1, 1] 0 1).2
      ≠ 1 / SampleSpec.peakAbs (SampleSpec.monoFold 2 [-6, 0, 1, 1]) := by
  have key := monoFold_take 2 ([0, 0, 0, 0] : List ℚ) [-6, 0, 1, 1] rfl
  have hfoldval : SampleSpec.monoFold 2 ([-6, 0, 1, 1] : List ℚ) = [-3, 1] := by
    norm_num [SampleSpec.monoFold, SampleSpec.frameMean, List.ofFn_succ,
      List.range_succ]
  have hgain : (copyWithRampingNormalization 2 [0, 0, 0, 0] [-6, 0, 1, 1] 0 1).2 = 1 := by
    simp only [copyWithRampingNormalization, key, hfoldval]
    norm_num [maxAbsAmplitude]
  have hpeak : SampleSpec.peakAbs (SampleSpec.monoFold 2 [-6, 0, 1, 1]) = 3 := by
    rw [hfoldval]
    norm_num [SampleSpec.peakAbs]
  refine ⟨hgain, hpeak, ?_⟩
  rw [hgain, hpeak]
  norm_num

/-- C5 amended: `copyWithRampingNormalization` returns `targetAmplitude`
divided by `maxAbsAmplitude` of the mono fold of `src` (the max of the
fold's signed first sample and the absolute values of its remaining
samples), or exactly `1` when that quantity is exactly zero; and it leaves
`dest` equal to `copyWithRampingGain` applied with gains
`oldGain → returnedGain` to the buffer whose prefix holds the mono fold. -/
theorem copyWithRampingNormalization_gain (chCount : ℕ) (pDest pSrc : List ℚ)
    (old_gain targetAmplitude : ℚ) (hlen : pSrc.length = pDest.length) :
    (copyWithRampingNormalization chCount pDest pSrc old_gain targetAmplitude).2
      = (if maxAbsAmplitude (SampleSpec.monoFold chCount pSrc) = 0 then 1
         else targetAmplitude / maxAbsAmplitude (SampleSpec.monoFold chCount pSrc)) ∧
    (copyWithRampingNormalization chCount pDest pSrc old_gain targetAmplitude).1
      = copyWithRampingGain (mixMultichannelToMono chCount pDest pSrc pDest.length)
          pSrc old_gain
          (copyWithRampingNormalization chCount pDest pSrc old_gain targetAmplitude).2 := by
  have key := monoFold_take chCount pDest pSrc hlen
  constructor
  · simp only [copyWithRampingNormalization, key]
  · simp only [copyWithRampingNormalization, key]

/-- C5 amended, witness: stereo source `[1, 1, 1, 1]` (mono fold `[1, 1]`,
peak `1`), target amplitude `2` returns gain `2`. -/
theorem copyWithRampingNormalization_gain_witness :
    (copyWithRampingNormalization 2 [0, 0, 0, 0] [1, 1, 1, 1] 0 2).2
      = (if maxAbsAmplitude (SampleSpec.monoFold 2 [1, 1, 1, 1]) = 0 then 1
         else 2 / maxAbsAmplitude (SampleSpec.monoFold 2 [1, 1, 1, 1])) :=
  (copyWithRampingNormalization_gain 2 [0, 0, 0, 0] [1, 1, 1, 1] 0 2 rfl).1

end SampleUtil
